import Mathlib

/-!
Verification development for the volt in-memory distributed key/value store
(consistent-hash ring with virtual nodes, per-node TTL storage engine,
asynchronous replication).  The definitions below are a shallow embedding of
src/src/lib.rs: byte strings are lists of naturals, instants and durations are
naturals, the xxh32 hash is embedded in full, the BTreeMap ring is a sorted
association list, the DashMap store is an association list with replace-on-
insert, and the priority_queue::PriorityQueue is a keyed queue whose push
upserts by key and whose peek/pop return the item with the GREATEST priority
(the crate is a max-priority-queue).  Fallible operations (slice indexing that
can panic, Arc::get_mut().unwrap()) return Option, with none for the panic.
-/

namespace Volt

/-- First multiplicative prime of xxHash32. -/
def xxhPrime1 : Nat := 2654435761

/-- Second multiplicative prime of xxHash32. -/
def xxhPrime2 : Nat := 2246822519

/-- Third multiplicative prime of xxHash32. -/
def xxhPrime3 : Nat := 3266489917

/-- Fourth multiplicative prime of xxHash32. -/
def xxhPrime4 : Nat := 668265263

/-- Fifth multiplicative prime of xxHash32. -/
def xxhPrime5 : Nat := 374761393

/-- Rotate a 32-bit value (represented as a Nat below 2^32) left by r bits. -/
def rotl32 (x r : Nat) : Nat := (x * 2 ^ r) % 2 ^ 32 + x / 2 ^ (32 - r)

/-- Little-endian read of four bytes as a 32-bit lane. -/
def u32le (a b c d : Nat) : Nat := a + 256 * b + 65536 * c + 16777216 * d

/-- One accumulator round of xxHash32. -/
def xxh32Round (acc lane : Nat) : Nat :=
  (rotl32 ((acc + lane * xxhPrime2) % 2 ^ 32) 13 * xxhPrime1) % 2 ^ 32

/-- Consume 16-byte stripes, updating the four accumulators; returns the
final accumulators and the remaining (fewer than 16) bytes. -/
def xxh32Stripes : List Nat → Nat × Nat × Nat × Nat → (Nat × Nat × Nat × Nat) × List Nat
  | b0 :: b1 :: b2 :: b3 :: b4 :: b5 :: b6 :: b7 ::
    b8 :: b9 :: b10 :: b11 :: b12 :: b13 :: b14 :: b15 :: rest, (v1, v2, v3, v4) =>
    xxh32Stripes rest
      (xxh32Round v1 (u32le b0 b1 b2 b3), xxh32Round v2 (u32le b4 b5 b6 b7),
       xxh32Round v3 (u32le b8 b9 b10 b11), xxh32Round v4 (u32le b12 b13 b14 b15))
  | l, acc => (acc, l)

/-- Consume remaining 4-byte lanes after the stripes. -/
def xxh32Tail4 : Nat → List Nat → Nat × List Nat
  | h, a :: b :: c :: d :: rest =>
    xxh32Tail4 ((rotl32 ((h + u32le a b c d * xxhPrime3) % 2 ^ 32) 17 * xxhPrime4) % 2 ^ 32) rest
  | h, l => (h, l)

/-- Final avalanche mix of xxHash32. -/
def xxh32Avalanche (h : Nat) : Nat :=
  let h1 := h ^^^ (h / 2 ^ 15)
  let h2 := (h1 * xxhPrime2) % 2 ^ 32
  let h3 := h2 ^^^ (h2 / 2 ^ 13)
  let h4 := (h3 * xxhPrime3) % 2 ^ 32
  h4 ^^^ (h4 / 2 ^ 16)

/-- The xxHash32 hash of a byte string with the given seed, as used by the
source for both ring placement and key routing (xxhash_rust::xxh32::xxh32). -/
def xxh32 (input : List Nat) (seed : Nat) : Nat :=
  let len := input.length
  let hrest : Nat × List Nat :=
    if len < 16 then ((seed + xxhPrime5) % 2 ^ 32, input)
    else
      let sr := xxh32Stripes input
        ((seed + xxhPrime1 + xxhPrime2) % 2 ^ 32, (seed + xxhPrime2) % 2 ^ 32,
         seed % 2 ^ 32, (seed + (2 ^ 32 - xxhPrime1)) % 2 ^ 32)
      ((rotl32 sr.1.1 1 + rotl32 sr.1.2.1 7 + rotl32 sr.1.2.2.1 12 + rotl32 sr.1.2.2.2 18) % 2 ^ 32,
       sr.2)
  let h0 := (hrest.1 + len) % 2 ^ 32
  let t4 := xxh32Tail4 h0 hrest.2
  let h1 := t4.2.foldl (fun h b => (rotl32 ((h + b * xxhPrime5) % 2 ^ 32) 11 * xxhPrime1) % 2 ^ 32) t4.1
  xxh32Avalanche h1

/-- A stored entry: value bytes and an optional expiry instant (KVEntry). -/
structure KVEntry where
  value : List Nat
  expiry : Option Nat
deriving DecidableEq

/-- A replication operation carried in a node's mailbox (KVOperation). -/
inductive KVOperation where
  | set : List Nat → List Nat → Option Nat → KVOperation
  | del : List Nat → KVOperation
deriving DecidableEq

/-- DashMap::insert — the new entry replaces any prior entry for the key. -/
def storeInsert (k : List Nat) (e : KVEntry) :
    List (List Nat × KVEntry) → List (List Nat × KVEntry)
  | [] => [(k, e)]
  | (k', e') :: rest => if k = k' then (k, e) :: rest else (k', e') :: storeInsert k e rest

/-- DashMap::get — point lookup by key. -/
def storeGet (k : List Nat) : List (List Nat × KVEntry) → Option KVEntry
  | [] => none
  | (k', e) :: rest => if k = k' then some e else storeGet k rest

/-- DashMap::remove — drop the key's entry (no-op if absent). -/
def storeRemove (k : List Nat) (s : List (List Nat × KVEntry)) : List (List Nat × KVEntry) :=
  s.eraseP (fun p => p.1 == k)

/-- PriorityQueue::push — upsert by key: if the key is already present its
priority is updated in place, otherwise the pair is appended. -/
def qpush (k : List Nat) (e : Nat) : List (List Nat × Nat) → List (List Nat × Nat)
  | [] => [(k, e)]
  | (k', e') :: rest => if k = k' then (k, e) :: rest else (k', e') :: qpush k e rest

/-- PriorityQueue::peek — the crate is a max-priority-queue: peek returns the
item with the GREATEST priority (leftmost on ties in this list model). -/
def qpeek : List (List Nat × Nat) → Option (List Nat × Nat)
  | [] => none
  | p :: rest =>
    match qpeek rest with
    | none => some p
    | some q => if p.2 < q.2 then some q else some p

/-- PriorityQueue::pop — remove the item qpeek returns. -/
def qpop (q : List (List Nat × Nat)) : List (List Nat × Nat) :=
  match qpeek q with
  | none => q
  | some p => q.eraseP (fun x => x.1 == p.1)

/-- PriorityQueue::remove — drop the record keyed by k, if any. -/
def qremove (k : List Nat) (q : List (List Nat × Nat)) : List (List Nat × Nat) :=
  q.eraseP (fun x => x.1 == k)

/-- Priority currently associated with a key in the queue, for stating facts. -/
def qlookup (k : List Nat) : List (List Nat × Nat) → Option Nat
  | [] => none
  | (k', e) :: rest => if k = k' then some e else qlookup k rest

/-- BTreeMap::insert on the ring: sorted association list, overwriting the
value when the coordinate is already present. -/
def ringInsert (k v : Nat) : List (Nat × Nat) → List (Nat × Nat)
  | [] => [(k, v)]
  | (k', v') :: rest =>
    if k < k' then (k, v) :: (k', v') :: rest
    else if k = k' then (k, v) :: rest
    else (k', v') :: ringInsert k v rest

/-- A storage node (KVNode): id, store, TTL priority queue, and its inbound
replication mailbox (the mpsc channel contents, in send order). -/
structure KVNode where
  id : List Nat
  store : List (List Nat × KVEntry)
  ttlQueue : List (List Nat × Nat)
  mailbox : List KVOperation
deriving DecidableEq

/-- The cluster (KVCluster): node list, ring, V and R. -/
structure KVCluster where
  nodes : List KVNode
  ring : List (Nat × Nat)
  vnodesPerNode : Nat
  replicationFactor : Nat
deriving DecidableEq

/-- KVCluster::new — fresh empty cluster. -/
def KVCluster.new (vnodesPerNode replicationFactor : Nat) : KVCluster :=
  { nodes := [], ring := [], vnodesPerNode := vnodesPerNode,
    replicationFactor := replicationFactor }

/-- ASCII bytes of the ring-coordinate string for a virtual node, i.e. of
format "{node_id}:{i}" (58 is the colon). -/
def vnodeBytes (nodeId : List Nat) (i : Nat) : List Nat :=
  nodeId ++ 58 :: (Nat.toDigits 10 i).map Char.toNat

/-- KVCluster::add_node, successful path: append a fresh node and insert its V
ring coordinates with the new node's index.  The spawned drain and expirer
tasks are modelled by the separate step functions below; the
Arc::get_mut().unwrap() panic path is modelled by addNodeChecked. -/
def KVCluster.addNode (c : KVCluster) (nodeId : List Nat) : KVCluster :=
  let nodeIdx := c.nodes.length
  let node : KVNode := { id := nodeId, store := [], ttlQueue := [], mailbox := [] }
  { c with
    nodes := c.nodes ++ [node],
    ring := (List.range c.vnodesPerNode).foldl
      (fun r i => ringInsert (xxh32 (vnodeBytes nodeId i) 0) nodeIdx r) c.ring }

/-- Cluster obtained from new(V, R) followed by add_node for each id in order. -/
def buildCluster (v r : Nat) (ids : List (List Nat)) : KVCluster :=
  ids.foldl KVCluster.addNode (KVCluster.new v r)

/-- The node indices produced by get_nodes' ring walk: the BTreeMap range from
the key's hash chained with the whole ring, truncated to R entries, with no
deduplication of physical nodes. -/
def getNodeIdxs (c : KVCluster) (key : List Nat) : List Nat :=
  let khash := xxh32 key 0
  (((c.ring.filter fun p => decide (khash ≤ p.1)) ++ c.ring).map Prod.snd).take
    c.replicationFactor

/-- KVCluster::get_nodes — clones self.nodes[idx] for every walked index;
returns none when some index is out of range (the indexing panic). -/
def KVCluster.getNodes (c : KVCluster) (key : List Nat) : Option (List Nat) :=
  let idxs := getNodeIdxs c key
  if idxs.all (fun i => decide (i < c.nodes.length)) then some idxs else none

/-- Replace node i of the cluster with f applied to it. -/
def modifyNode (c : KVCluster) (i : Nat) (f : KVNode → KVNode) : KVCluster :=
  match c.nodes.get? i with
  | none => c
  | some n => { c with nodes := c.nodes.set i (f n) }

/-- Append a replication operation to node i's mailbox (mpsc send). -/
def pushMailbox (c : KVCluster) (i : Nat) (op : KVOperation) : KVCluster :=
  modifyNode c i fun n => { n with mailbox := n.mailbox ++ [op] }

/-- KVCluster::set at instant now: inline insert on the primary (store replace
plus, when a ttl is given, an upserting queue push), then a Set enqueued to
each remaining walked index.  none models the nodes[0] panic on an empty walk. -/
def KVCluster.set (c : KVCluster) (key value : List Nat) (ttl : Option Nat) (now : Nat) :
    Option KVCluster :=
  match c.getNodes key with
  | none => none
  | some [] => none
  | some (p :: replicas) =>
    match c.nodes.get? p with
    | none => none
    | some node =>
      let expiry := ttl.map fun d => now + d
      let node' : KVNode :=
        { node with
          store := storeInsert key ⟨value, expiry⟩ node.store,
          ttlQueue := match expiry with
            | some e => qpush key e node.ttlQueue
            | none => node.ttlQueue }
      let c1 := { c with nodes := c.nodes.set p node' }
      some (replicas.foldl (fun cc i => pushMailbox cc i (KVOperation.set key value ttl)) c1)

/-- KVCluster::get at instant now: read the primary only; on a present entry
whose expiry is at or before now, lazily evict it from the store and the
queue and return absent.  The pair is (returned value, cluster afterwards);
none models the nodes[0] panic on an empty walk. -/
def KVCluster.get (c : KVCluster) (key : List Nat) (now : Nat) :
    Option (Option (List Nat) × KVCluster) :=
  match c.getNodes key with
  | none => none
  | some [] => none
  | some (p :: _) =>
    match c.nodes.get? p with
    | none => none
    | some node =>
      match storeGet key node.store with
      | none => some (none, c)
      | some entry =>
        match entry.expiry with
        | some e =>
          if e ≤ now then
            let node' : KVNode :=
              { node with store := storeRemove key node.store,
                          ttlQueue := qremove key node.ttlQueue }
            some (none, { c with nodes := c.nodes.set p node' })
          else some (some entry.value, c)
        | none => some (some entry.value, c)

/-- KVCluster::del: inline removal from the primary's store and queue, then a
Del enqueued to each remaining walked index. -/
def KVCluster.del (c : KVCluster) (key : List Nat) : Option KVCluster :=
  match c.getNodes key with
  | none => none
  | some [] => none
  | some (p :: replicas) =>
    match c.nodes.get? p with
    | none => none
    | some node =>
      let node' : KVNode :=
        { node with store := storeRemove key node.store,
                    ttlQueue := qremove key node.ttlQueue }
      let c1 := { c with nodes := c.nodes.set p node' }
      some (replicas.foldl (fun cc i => pushMailbox cc i (KVOperation.del key)) c1)

/-- Inner loop of the eager expirer: while the peeked (greatest-priority)
record's expiry is at or before now, remove that key from the store and pop
the record.  Fuel bounds the iteration; the initial queue length suffices
because each iteration pops one record. -/
def expireDrainAux : Nat → Nat → List (List Nat × KVEntry) → List (List Nat × Nat) →
    List (List Nat × KVEntry) × List (List Nat × Nat)
  | 0, _, s, q => (s, q)
  | fuel + 1, now, s, q =>
    match qpeek q with
    | none => (s, q)
    | some (k, e) => if now < e then (s, q) else expireDrainAux fuel now (storeRemove k s) (qpop q)

/-- One wake-up of a node's eager expirer task at instant now. -/
def expirerStep (now : Nat) (n : KVNode) : KVNode :=
  let r := expireDrainAux n.ttlQueue.length now n.store n.ttlQueue
  { n with store := r.1, ttlQueue := r.2 }

/-- Model of std::sync::Arc::get_mut: exclusive access is granted exactly when
the strong count is one (no other live clone of the Arc). -/
def arcGetMut (strongCount : Nat) : Option Unit :=
  if strongCount = 1 then some () else none

/-- A KVCluster value together with the strong count of its ring Arc, i.e. the
number of live KVCluster handles sharing that ring (KVCluster derives Clone,
and cloning clones the Arc). -/
structure ClusterHandle where
  cluster : KVCluster
  strongCount : Nat
deriving DecidableEq

/-- KVCluster::clone — the ring Arc's strong count goes up by one. -/
def cloneHandle (h : ClusterHandle) : ClusterHandle :=
  { h with strongCount := h.strongCount + 1 }

/-- KVCluster::add_node including the Arc::get_mut(&mut self.ring).unwrap()
step: none models the unwrap panic, taken whenever another clone is alive. -/
def addNodeChecked (h : ClusterHandle) (nodeId : List Nat) : Option ClusterHandle :=
  match arcGetMut h.strongCount with
  | none => none
  | some _ => some { h with cluster := h.cluster.addNode nodeId }

/-- The keys of an association list are pairwise distinct.  This holds for
every store, queue and ring reachable through the operations above; it is
taken as an explicit hypothesis where a theorem ranges over raw states. -/
def keysNodup {α : Type} (s : List (List Nat × α)) : Prop :=
  (s.map Prod.fst).Nodup

instance {α : Type} (s : List (List Nat × α)) : Decidable (keysNodup s) := by
  unfold keysNodup; infer_instance

/-- The ring's coordinates are strictly increasing (BTreeMap iteration
order); every ring built by ringInsert from the empty map satisfies this. -/
def ringSorted (r : List (Nat × Nat)) : Prop :=
  List.Pairwise (fun a b => a.1 < b.1) r

/-- Fixture: a node holding one live entry with no expiry for key 107 while its
priority queue holds a stale record with the past expiry 5 for the same key. -/
def staleNode : KVNode :=
  { id := [97], store := [([107], { value := [118], expiry := none })],
    ttlQueue := [([107], 5)], mailbox := [] }

/-- Fixture: a one-node cluster (V = 1, R = 1, node id the byte 97) whose only
node is staleNode; key 107 routes to it. -/
def staleCluster : KVCluster :=
  { nodes := [staleNode], ring := [(3386834463, 0)], vnodesPerNode := 1,
    replicationFactor := 1 }

/-- Fixture: a one-node cluster whose only node holds an entry for key 107
that expired at instant 5 (queue record included). -/
def expiredCluster : KVCluster :=
  { nodes := [{ id := [97], store := [([107], { value := [118], expiry := some 5 })],
                ttlQueue := [([107], 5)], mailbox := [] }],
    ring := [(3386834463, 0)], vnodesPerNode := 1, replicationFactor := 1 }

/-- Fixture: the cluster new(1, 1) + add_node a after set(key 107, value 118,
ttl 5) at instant 100: the single node stores the entry with expiry 105 and
the queue record (107, 105). -/
def clusterAfterSet : KVCluster :=
  { nodes := [{ id := [97], store := [([107], { value := [118], expiry := some 105 })],
                ttlQueue := [([107], 105)], mailbox := [] }],
    ring := [(3386834463, 0)], vnodesPerNode := 1, replicationFactor := 1 }

/-- Fixture: clusterAfterSet after a second set of key 107 with value 119 and
ttl 50 at instant 100: the store entry is replaced and the queue record
upserted to expiry 150. -/
def clusterAfterUpsert : KVCluster :=
  { nodes := [{ id := [97], store := [([107], { value := [119], expiry := some 150 })],
                ttlQueue := [([107], 150)], mailbox := [] }],
    ring := [(3386834463, 0)], vnodesPerNode := 1, replicationFactor := 1 }

/-- Reference vector: xxh32 of the empty string with seed 0. -/
theorem xxh32_empty_vector : xxh32 [] 0 = 46947589 := by decide

/-- Reference vector: xxh32 of the ASCII bytes of the string abc with seed 0. -/
theorem xxh32_abc_vector : xxh32 [97, 98, 99] 0 = 852579327 := by decide

/-- Reference vector: a 39-byte input exercising the 16-byte stripe loop
(ASCII of a standard pangram-style test phrase). -/
theorem xxh32_long_vector :
    xxh32 [78, 111, 98, 111, 100, 121, 32, 105, 110, 115, 112, 101, 99, 116, 115, 32,
           116, 104, 101, 32, 115, 112, 97, 109, 109, 105, 115, 104, 32, 114, 101, 112,
           101, 116, 105, 116, 105, 111, 110] 0 = 3794352943 := by decide

theorem storeGet_storeInsert_self (k : List Nat) (e : KVEntry)
    (s : List (List Nat × KVEntry)) : storeGet k (storeInsert k e s) = some e := by
  induction s with
  | nil => simp [storeInsert, storeGet]
  | cons hd tl ih =>
    obtain ⟨k', e'⟩ := hd
    by_cases h : k = k' <;> simp [storeInsert, storeGet, h, ih]

theorem qlookup_qpush_self (k : List Nat) (e : Nat) (q : List (List Nat × Nat)) :
    qlookup k (qpush k e q) = some e := by
  induction q with
  | nil => simp [qpush, qlookup]
  | cons hd tl ih =>
    obtain ⟨k', e'⟩ := hd
    by_cases h : k = k' <;> simp [qpush, qlookup, h, ih]

theorem storeGet_eq_none_of_not_mem (k : List Nat) (s : List (List Nat × KVEntry))
    (h : k ∉ s.map Prod.fst) : storeGet k s = none := by
  induction s with
  | nil => simp [storeGet]
  | cons hd tl ih =>
    obtain ⟨k', e'⟩ := hd
    simp only [List.map_cons, List.mem_cons] at h
    push_neg at h
    simp [storeGet, h.1, ih h.2]

theorem qlookup_eq_none_of_not_mem (k : List Nat) (q : List (List Nat × Nat))
    (h : k ∉ q.map Prod.fst) : qlookup k q = none := by
  induction q with
  | nil => simp [qlookup]
  | cons hd tl ih =>
    obtain ⟨k', e'⟩ := hd
    simp only [List.map_cons, List.mem_cons] at h
    push_neg at h
    simp [qlookup, h.1, ih h.2]

theorem storeGet_storeRemove_self (k : List Nat) (s : List (List Nat × KVEntry))
    (hwf : keysNodup s) : storeGet k (storeRemove k s) = none := by
  induction s with
  | nil => simp [storeRemove, storeGet]
  | cons hd tl ih =>
    obtain ⟨k', e'⟩ := hd
    unfold keysNodup at hwf
    simp only [List.map_cons, List.nodup_cons] at hwf
    by_cases h : k' = k
    · subst h
      simp only [storeRemove, List.eraseP_cons, beq_self_eq_true, cond_true]
      exact storeGet_eq_none_of_not_mem _ _ hwf.1
    · have hne : (k' == k) = false := beq_false_of_ne h
      have hkk : ¬ k = k' := fun hh => h hh.symm
      simp only [storeRemove, List.eraseP_cons, hne, cond_false, storeGet, if_neg hkk]
      exact ih hwf.2

theorem qlookup_qremove_self (k : List Nat) (q : List (List Nat × Nat))
    (hwf : keysNodup q) : qlookup k (qremove k q) = none := by
  induction q with
  | nil => simp [qremove, qlookup]
  | cons hd tl ih =>
    obtain ⟨k', e'⟩ := hd
    unfold keysNodup at hwf
    simp only [List.map_cons, List.nodup_cons] at hwf
    by_cases h : k' = k
    · subst h
      simp only [qremove, List.eraseP_cons, beq_self_eq_true, cond_true]
      exact qlookup_eq_none_of_not_mem _ _ hwf.1
    · have hne : (k' == k) = false := beq_false_of_ne h
      have hkk : ¬ k = k' := fun hh => h hh.symm
      simp only [qremove, List.eraseP_cons, hne, cond_false, qlookup, if_neg hkk]
      exact ih hwf.2

theorem pushMailbox_ring (c : KVCluster) (i : Nat) (op : KVOperation) :
    (pushMailbox c i op).ring = c.ring := by
  unfold pushMailbox modifyNode; split <;> rfl

theorem pushMailbox_rf (c : KVCluster) (i : Nat) (op : KVOperation) :
    (pushMailbox c i op).replicationFactor = c.replicationFactor := by
  unfold pushMailbox modifyNode; split <;> rfl

theorem pushMailbox_length (c : KVCluster) (i : Nat) (op : KVOperation) :
    (pushMailbox c i op).nodes.length = c.nodes.length := by
  unfold pushMailbox modifyNode; split
  · rfl
  · simp [List.length_set]

theorem pushMailbox_get_sq (c : KVCluster) (j : Nat) (op : KVOperation) (i : Nat) :
    ((pushMailbox c j op).nodes.get? i).map (fun n => (n.store, n.ttlQueue)) =
      (c.nodes.get? i).map (fun n => (n.store, n.ttlQueue)) := by
  unfold pushMailbox modifyNode
  cases hj : c.nodes.get? j with
  | none => rfl
  | some n =>
    by_cases hij : j = i
    · subst hij
      have hlt : j < c.nodes.length := by
        by_contra hge
        rw [List.get?_eq_none.mpr (Nat.le_of_not_lt hge)] at hj
        exact Option.noConfusion hj
      simp only [List.get?_set_eq_of_lt _ hlt, hj, Option.map_some']
    · simp only [List.get?_set_ne _ _ hij]

theorem foldMailbox_ring (l : List Nat) (op : KVOperation) :
    ∀ c : KVCluster, (l.foldl (fun cc i => pushMailbox cc i op) c).ring = c.ring := by
  induction l with
  | nil => intro c; rfl
  | cons hd tl ih => intro c; rw [List.foldl_cons, ih, pushMailbox_ring]

theorem foldMailbox_rf (l : List Nat) (op : KVOperation) :
    ∀ c : KVCluster,
      (l.foldl (fun cc i => pushMailbox cc i op) c).replicationFactor = c.replicationFactor := by
  induction l with
  | nil => intro c; rfl
  | cons hd tl ih => intro c; rw [List.foldl_cons, ih, pushMailbox_rf]

theorem foldMailbox_length (l : List Nat) (op : KVOperation) :
    ∀ c : KVCluster,
      (l.foldl (fun cc i => pushMailbox cc i op) c).nodes.length = c.nodes.length := by
  induction l with
  | nil => intro c; rfl
  | cons hd tl ih => intro c; rw [List.foldl_cons, ih, pushMailbox_length]

theorem foldMailbox_get_sq (l : List Nat) (op : KVOperation) :
    ∀ (c : KVCluster) (i : Nat),
      ((l.foldl (fun cc j => pushMailbox cc j op) c).nodes.get? i).map
          (fun n => (n.store, n.ttlQueue)) =
        (c.nodes.get? i).map (fun n => (n.store, n.ttlQueue)) := by
  induction l with
  | nil => intro c i; rfl
  | cons hd tl ih => intro c i; rw [List.foldl_cons, ih, pushMailbox_get_sq]

theorem getNodeIdxs_congr {c c' : KVCluster} (key : List Nat) (hr : c'.ring = c.ring)
    (hf : c'.replicationFactor = c.replicationFactor) :
    getNodeIdxs c' key = getNodeIdxs c key := by
  simp [getNodeIdxs, hr, hf]

theorem getNodes_congr {c c' : KVCluster} (key : List Nat) (hr : c'.ring = c.ring)
    (hf : c'.replicationFactor = c.replicationFactor)
    (hl : c'.nodes.length = c.nodes.length) :
    c'.getNodes key = c.getNodes key := by
  simp only [KVCluster.getNodes, getNodeIdxs_congr key hr hf, hl]

theorem set_inv {c : KVCluster} {key value : List Nat} {ttl : Option Nat} {now : Nat}
    {c1 : KVCluster} (h : c.set key value ttl now = some c1) :
    ∃ p reps node,
      c.getNodes key = some (p :: reps) ∧
      c.nodes.get? p = some node ∧
      c1 = reps.foldl (fun cc i => pushMailbox cc i (KVOperation.set key value ttl))
        { c with nodes := c.nodes.set p
                            { node with
                              store := storeInsert key ⟨value, ttl.map fun d => now + d⟩
                                         node.store,
                              ttlQueue := match ttl.map fun d => now + d with
                                | some e => qpush key e node.ttlQueue
                                | none => node.ttlQueue } } := by
  unfold KVCluster.set at h
  split at h
  · exact absurd h (by simp)
  · exact absurd h (by simp)
  · next p replicas heq =>
    split at h
    · exact absurd h (by simp)
    · next node hnode =>
      refine ⟨p, replicas, node, heq, hnode, ?_⟩
      simp only [Option.some_inj] at h
      exact h.symm

theorem get_hit {c : KVCluster} {key : List Nat} {now p : Nat} {rest : List Nat}
    {node : KVNode} {entry : KVEntry}
    (hg : c.getNodes key = some (p :: rest)) (hn : c.nodes.get? p = some node)
    (hs : storeGet key node.store = some entry)
    (he : ∀ e, entry.expiry = some e → now < e) :
    c.get key now = some (some entry.value, c) := by
  unfold KVCluster.get
  simp only [hg, hn, hs]
  cases hx : entry.expiry with
  | none => simp
  | some e =>
    have hlt := he e hx
    simp [Nat.not_le.mpr hlt]

theorem qpeek_eq_none_iff (q : List (List Nat × Nat)) : qpeek q = none ↔ q = [] := by
  cases q with
  | nil => simp [qpeek]
  | cons hd tl =>
    simp only [qpeek]
    constructor
    · intro h
      cases htl : qpeek tl <;> rw [htl] at h
      · exact absurd h (by simp)
      · dsimp only at h
        split at h <;> exact absurd h (by simp)
    · intro h
      exact absurd h (by simp)

/-- C7: on a cluster with no nodes, get_nodes walks an empty ring and returns
the empty replica list, and SET, GET and DEL all hit the index-zero access
into that empty list, i.e. panic (modelled as none) instead of completing as a
no-op. -/
theorem empty_ring_ops_panic (v r : Nat) (key value : List Nat) (ttl : Option Nat)
    (now : Nat) :
    getNodeIdxs (KVCluster.new v r) key = [] ∧
    (KVCluster.new v r).set key value ttl now = none ∧
    (KVCluster.new v r).get key now = none ∧
    (KVCluster.new v r).del key = none := by
  refine ⟨?_, ?_, ?_, ?_⟩ <;>
    simp [getNodeIdxs, KVCluster.new, KVCluster.set, KVCluster.get, KVCluster.del,
      KVCluster.getNodes]

/-- C8: routing is deterministic — two clusters built by identical add_node
sequences (same V, same R, same ids in the same order) produce the same ring
walk and the same replica set for every key, the hash function and its zero
seed being fixed. -/
theorem routing_deterministic (v r : Nat) (ids : List (List Nat)) (key : List Nat)
    (c1 c2 : KVCluster) (h1 : c1 = buildCluster v r ids) (h2 : c2 = buildCluster v r ids) :
    getNodeIdxs c1 key = getNodeIdxs c2 key ∧ c1.getNodes key = c2.getNodes key := by
  subst h1; subst h2; exact ⟨rfl, rfl⟩

/-- Witness for routing_deterministic at a concrete cluster and key. -/
theorem routing_deterministic_witness :
    getNodeIdxs (buildCluster 1 1 [[97]]) [107] =
        getNodeIdxs (buildCluster 1 1 [[97]]) [107] ∧
      (buildCluster 1 1 [[97]]).getNodes [107] = (buildCluster 1 1 [[97]]).getNodes [107] :=
  routing_deterministic 1 1 [[97]] [107] (buildCluster 1 1 [[97]])
    (buildCluster 1 1 [[97]]) rfl rfl

/-- C9: add_node unwraps Arc::get_mut on the shared ring, which yields
exclusive access only when the handle is the unique live clone; with any other
clone alive the unwrap panics.  So add_node succeeds exactly on a cluster with
one live handle, and always panics on a freshly cloned cluster. -/
theorem add_node_needs_exclusive_handle (h : ClusterHandle) (nodeId : List Nat)
    (hlive : 1 ≤ h.strongCount) :
    ((addNodeChecked h nodeId).isSome ↔ h.strongCount = 1) ∧
    addNodeChecked (cloneHandle h) nodeId = none := by
  constructor
  · by_cases hc : h.strongCount = 1 <;> simp [addNodeChecked, arcGetMut, hc]
  · have hne : ¬ h.strongCount + 1 = 1 := by omega
    simp [addNodeChecked, arcGetMut, cloneHandle, hne]

/-- Witness for add_node_needs_exclusive_handle on a fresh single-handle
cluster. -/
theorem add_node_needs_exclusive_handle_witness :
    1 ≤ (1 : Nat) ∧
    (((addNodeChecked ⟨KVCluster.new 1 1, 1⟩ [97]).isSome ↔ (1 : Nat) = 1) ∧
      addNodeChecked (cloneHandle ⟨KVCluster.new 1 1, 1⟩) [97] = none) :=
  ⟨by decide, add_node_needs_exclusive_handle ⟨KVCluster.new 1 1, 1⟩ [97] (by decide)⟩

/-- C2 counterexample: the per-node queue is NOT ordered smallest-expiry
first.  On a queue holding records with expiries 5 and 9, peek returns the
record with expiry 9 although a record with the smaller expiry 5 is present
(the priority_queue crate is a max-priority-queue), and an eager expirer
wake-up at instant 6 — when the expiry-5 record is already past due — evicts
nothing, because the peeked record (expiry 9) is still live. -/
theorem queue_not_min_first_cex :
    qpeek [([97], 5), ([98], 9)] = some ([98], 9) ∧
    ([97], 5) ∈ [([97], 5), ([98], 9)] ∧ (5 : Nat) < 9 ∧
    expirerStep 6
        { id := [110],
          store := [([97], { value := [1], expiry := some 5 }),
                    ([98], { value := [2], expiry := some 9 })],
          ttlQueue := [([97], 5), ([98], 9)], mailbox := [] } =
      { id := [110],
        store := [([97], { value := [1], expiry := some 5 }),
                  ([98], { value := [2], expiry := some 9 })],
        ttlQueue := [([97], 5), ([98], 9)], mailbox := [] } := by decide

/-- C2 (amended): the queue is prioritised by expiry LARGEST first — whenever
the queue is non-empty, peek yields a record whose expiry is the maximum over
all records currently in the queue (and that record is in the queue), so the
eager expirer pops records in nonincreasing expiry order and evicts the
latest-expiring record first, only once every record is past due. -/
theorem qpeek_returns_greatest_expiry (q : List (List Nat × Nat)) (k : List Nat) (e : Nat)
    (h : qpeek q = some (k, e)) : (k, e) ∈ q ∧ ∀ p ∈ q, p.2 ≤ e := by
  induction q generalizing k e with
  | nil => exact absurd h (by simp [qpeek])
  | cons hd tl ih =>
    rw [qpeek] at h
    cases htl : qpeek tl with
    | none =>
      rw [htl] at h
      dsimp only at h
      have hhd : hd = (k, e) := by injection h
      have htl' : tl = [] := (qpeek_eq_none_iff tl).mp htl
      subst htl'
      subst hhd
      exact ⟨by simp, by simp⟩
    | some m =>
      rw [htl] at h
      dsimp only at h
      obtain ⟨hmem, hall⟩ := ih m.1 m.2 (by rw [htl])
      by_cases hlt : hd.2 < m.2
      · rw [if_pos hlt] at h
        have hm : m = (k, e) := by injection h
        subst hm
        refine ⟨List.mem_cons_of_mem _ hmem, ?_⟩
        intro p hp
        rcases List.mem_cons.mp hp with hp | hp
        · subst hp; exact Nat.le_of_lt hlt
        · exact hall p hp
      · rw [if_neg hlt] at h
        have hm : hd = (k, e) := by injection h
        subst hm
        refine ⟨List.mem_cons_self _ _, ?_⟩
        intro p hp
        rcases List.mem_cons.mp hp with hp | hp
        · subst hp; exact Nat.le_refl _
        · exact Nat.le_trans (hall p hp) (Nat.le_of_not_lt hlt)

/-- Witness for qpeek_returns_greatest_expiry on a two-record queue. -/
theorem qpeek_returns_greatest_expiry_witness :
    ([98], 9) ∈ [([97], 5), ([98], 9)] ∧ ∀ p ∈ [([97], 5), ([98], 9)], p.2 ≤ 9 :=
  qpeek_returns_greatest_expiry [([97], 5), ([98], 9)] [98] 9 (by rfl)

/-- C3 counterexample: a live entry with NO expiry (hence unexpired at every
instant) for key 107 coexists with a stale past-due queue record for that key
(expiry 5, differing from the live entry's absent expiry); one eager expirer
wake-up at instant 10 removes the live entry from the store.  The eager path
does not treat a queue record whose live expiry differs as benign. -/
theorem expirer_removes_live_entry_cex :
    storeGet [107] staleNode.store = some { value := [118], expiry := none } ∧
    storeGet [107] (expirerStep 10 staleNode).store = none := by decide

/-- C3 (amended): only the LAZY path is benign: a GET that finds a live
unexpired entry returns it and leaves the cluster unchanged, whatever stale
record (of a differing expiry) the queue holds for the key; the eager expirer,
by contrast, removes the store entry of every past-due queue record it pops
without consulting the live entry's expiry (see the counterexample). -/
theorem lazy_get_ignores_stale_queue_record {c : KVCluster} {key : List Nat}
    {now p : Nat} {rest : List Nat} {node : KVNode} {entry : KVEntry} {es : Nat}
    (hg : c.getNodes key = some (p :: rest)) (hn : c.nodes.get? p = some node)
    (hs : storeGet key node.store = some entry)
    (hq : qlookup key node.ttlQueue = some es)
    (hdiff : entry.expiry ≠ some es)
    (hunexp : ∀ e, entry.expiry = some e → now < e) :
    c.get key now = some (some entry.value, c) :=
  get_hit hg hn hs hunexp

/-- Witness for lazy_get_ignores_stale_queue_record on staleCluster. -/
theorem lazy_get_ignores_stale_queue_record_witness :
    staleCluster.get [107] 10 = some (some [118], staleCluster) :=
  @lazy_get_ignores_stale_queue_record staleCluster [107] 10 0 [] staleNode
    { value := [118], expiry := none } 5 (by decide) (by rfl) (by rfl) (by rfl)
    (by simp) (by intro e he; exact absurd he (by simp))

theorem get?_some_lt {α : Type} {l : List α} {i : Nat} {a : α} (h : l.get? i = some a) :
    i < l.length := by
  by_contra hge
  rw [List.get?_eq_none.mpr (Nat.le_of_not_lt hge)] at h
  exact Option.noConfusion h

/-- C6: lazy expiry — a GET that observes a stored entry whose expiry is at or
before the current instant returns absent and, as a side effect, removes the
entry from the primary's store and the key's record from the primary's
priority queue; no expirer step is involved (the trace contains none). -/
theorem lazy_expiry_evicts {c : KVCluster} {key : List Nat} {now p : Nat}
    {rest : List Nat} {node : KVNode} {entry : KVEntry} {e : Nat}
    (hg : c.getNodes key = some (p :: rest)) (hn : c.nodes.get? p = some node)
    (hwfs : keysNodup node.store) (hwfq : keysNodup node.ttlQueue)
    (hs : storeGet key node.store = some entry)
    (hx : entry.expiry = some e) (hpast : e ≤ now) :
    ∃ node',
      c.get key now = some (none, { c with nodes := c.nodes.set p node' }) ∧
      storeGet key node'.store = none ∧ qlookup key node'.ttlQueue = none := by
  refine ⟨{ node with
            store := storeRemove key node.store
            ttlQueue := qremove key node.ttlQueue }, ?_, ?_, ?_⟩
  · unfold KVCluster.get
    simp only [hg, hn, hs, hx]
    rw [if_pos hpast]
  · exact storeGet_storeRemove_self key node.store hwfs
  · exact qlookup_qremove_self key node.ttlQueue hwfq

/-- Witness for lazy_expiry_evicts: a GET at instant 10 on expiredCluster. -/
theorem lazy_expiry_evicts_witness :
    ∃ node',
      expiredCluster.get [107] 10 =
        some (none, { expiredCluster with nodes := expiredCluster.nodes.set 0 node' }) ∧
      storeGet [107] node'.store = none ∧ qlookup [107] node'.ttlQueue = none :=
  @lazy_expiry_evicts expiredCluster [107] 10 0 []
    { id := [97], store := [([107], { value := [118], expiry := some 5 })],
      ttlQueue := [([107], 5)], mailbox := [] }
    { value := [118], expiry := some 5 } 5
    (by decide) (by rfl) (by decide) (by decide) (by rfl) (by rfl) (by decide)

/-- C5: read-your-writes on the primary — after a successful set of (key,
value, ttl) at instant t0, a get of the key at any instant before the entry's
expiry (any instant at all when ttl is absent) returns Some(value) and leaves
the cluster unchanged. -/
theorem read_your_writes {c c1 : KVCluster} {key value : List Nat} {ttl : Option Nat}
    {t0 now : Nat} (hset : c.set key value ttl t0 = some c1)
    (hlive : ∀ d, ttl = some d → now < t0 + d) :
    c1.get key now = some (some value, c1) := by
  obtain ⟨p, reps, node, hg, hn, hc1⟩ := set_inv hset
  have hp : p < c.nodes.length := get?_some_lt hn
  have hring : c1.ring = c.ring := by rw [hc1, foldMailbox_ring]
  have hrf : c1.replicationFactor = c.replicationFactor := by rw [hc1, foldMailbox_rf]
  have hlen : c1.nodes.length = c.nodes.length := by
    rw [hc1, foldMailbox_length]; exact List.length_set ..
  have hg1 : c1.getNodes key = some (p :: reps) := by
    rw [getNodes_congr key hring hrf hlen]; exact hg
  have hsq : (c1.nodes.get? p).map (fun n => (n.store, n.ttlQueue)) =
      some (storeInsert key ⟨value, ttl.map fun d => t0 + d⟩ node.store,
        match ttl.map fun d => t0 + d with
        | some e => qpush key e node.ttlQueue
        | none => node.ttlQueue) := by
    rw [hc1, foldMailbox_get_sq]
    simp only [List.get?_set_eq_of_lt _ hp, Option.map_some']
  obtain ⟨n1, hn1, hsq1⟩ := Option.map_eq_some'.mp hsq
  have hstore : n1.store = storeInsert key ⟨value, ttl.map fun d => t0 + d⟩ node.store :=
    congrArg Prod.fst hsq1
  have hsget : storeGet key n1.store = some ⟨value, ttl.map fun d => t0 + d⟩ := by
    rw [hstore]; exact storeGet_storeInsert_self ..
  have hexp : ∀ e, (⟨value, ttl.map fun d => t0 + d⟩ : KVEntry).expiry = some e → now < e := by
    intro e he
    simp only [Option.map_eq_some'] at he
    obtain ⟨d, hd, rfl⟩ := he
    exact hlive d hd
  exact get_hit hg1 hn1 hsget hexp

/-- Witness for read_your_writes: the concrete set at t0 = 100 with ttl 5
followed by a get at instant 101. -/
theorem read_your_writes_witness :
    clusterAfterSet.get [107] 101 = some (some [118], clusterAfterSet) :=
  @read_your_writes (buildCluster 1 1 [[97]]) clusterAfterSet [107] [118] (some 5) 100 101
    (by decide) (by intro d hd; simp only [Option.some_inj] at hd; omega)

theorem buildCluster_nodes_clean (v r : Nat) (ids : List (List Nat)) :
    ∀ n ∈ (buildCluster v r ids).nodes, n.store = [] ∧ n.ttlQueue = [] := by
  suffices h : ∀ (l : List (List Nat)) (c : KVCluster),
      (∀ n ∈ c.nodes, n.store = [] ∧ n.ttlQueue = []) →
      ∀ n ∈ (l.foldl KVCluster.addNode c).nodes, n.store = [] ∧ n.ttlQueue = [] by
    exact h ids (KVCluster.new v r) (by intro n hn; simp [KVCluster.new] at hn)
  intro l
  induction l with
  | nil => intro c hc; exact hc
  | cons hd tl ih =>
    intro c hc
    rw [List.foldl_cons]
    apply ih
    intro n hn
    simp only [KVCluster.addNode, List.mem_append, List.mem_singleton] at hn
    rcases hn with hn | hn
    · exact hc n hn
    · subst hn; exact ⟨rfl, rfl⟩

/-- C4: TTL upsert — the queue push upserts by key, so after set(k, v1, d1)
followed by set(k, v2, d2) at the same instant t0 on a freshly built cluster,
the primary's queue holds exactly the single record (k, t0 + d2) (the earlier
record's expiry was replaced), the store holds (v2, t0 + d2), and a get at any
instant t with t0 + d1 < t < t0 + d2 returns Some(v2). -/
theorem ttl_upsert {v r : Nat} {ids : List (List Nat)} {key v1 v2 : List Nat}
    {d1 d2 t0 t : Nat} {c1 c2 : KVCluster}
    (hset1 : (buildCluster v r ids).set key v1 (some d1) t0 = some c1)
    (hset2 : c1.set key v2 (some d2) t0 = some c2)
    (hd1 : 0 < d1) (hdd : d1 < d2) (ht1 : t0 + d1 < t) (ht2 : t < t0 + d2) :
    c2.get key t = some (some v2, c2) ∧
    ∃ p2 rest2 n2, c2.getNodes key = some (p2 :: rest2) ∧
      c2.nodes.get? p2 = some n2 ∧
      n2.ttlQueue = [(key, t0 + d2)] ∧
      storeGet key n2.store = some { value := v2, expiry := some (t0 + d2) } := by
  obtain ⟨p, reps, node0, hg0, hn0, hc1⟩ := set_inv hset1
  have hclean := buildCluster_nodes_clean v r ids node0 (List.get?_mem hn0)
  have hp0 : p < (buildCluster v r ids).nodes.length := get?_some_lt hn0
  have hring1 : c1.ring = (buildCluster v r ids).ring := by rw [hc1, foldMailbox_ring]
  have hrf1 : c1.replicationFactor = (buildCluster v r ids).replicationFactor := by
    rw [hc1, foldMailbox_rf]
  have hlen1 : c1.nodes.length = (buildCluster v r ids).nodes.length := by
    rw [hc1, foldMailbox_length]; exact List.length_set ..
  have hg1 : c1.getNodes key = some (p :: reps) := by
    rw [getNodes_congr key hring1 hrf1 hlen1]; exact hg0
  have hsq1 : (c1.nodes.get? p).map (fun n => (n.store, n.ttlQueue)) =
      some ([(key, ⟨v1, some (t0 + d1)⟩)], [(key, t0 + d1)]) := by
    rw [hc1, foldMailbox_get_sq]
    simp only [List.get?_set_eq_of_lt _ hp0, Option.map_some', Option.some_inj]
    rw [hclean.1, hclean.2]
    simp [storeInsert, qpush]
  obtain ⟨p', reps', node1, hg1', hn1, hc2⟩ := set_inv hset2
  have hinj : some (p :: reps) = some (p' :: reps') := hg1.symm.trans hg1'
  have hinj2 : p = p' ∧ reps = reps' := by
    simp only [Option.some_inj, List.cons.injEq] at hinj; exact hinj
  obtain ⟨rfl, rfl⟩ : p = p' ∧ reps = reps' := hinj2
  rw [hn1] at hsq1
  simp only [Option.map_some', Option.some_inj, Prod.mk.injEq] at hsq1
  obtain ⟨hst1, htq1⟩ := hsq1
  have hp1 : p < c1.nodes.length := get?_some_lt hn1
  have hring2 : c2.ring = c1.ring := by rw [hc2, foldMailbox_ring]
  have hrf2 : c2.replicationFactor = c1.replicationFactor := by rw [hc2, foldMailbox_rf]
  have hlen2 : c2.nodes.length = c1.nodes.length := by
    rw [hc2, foldMailbox_length]; exact List.length_set ..
  have hg2 : c2.getNodes key = some (p :: reps) := by
    rw [getNodes_congr key hring2 hrf2 hlen2]; exact hg1'
  have hsq2 : (c2.nodes.get? p).map (fun n => (n.store, n.ttlQueue)) =
      some ([(key, ⟨v2, some (t0 + d2)⟩)], [(key, t0 + d2)]) := by
    rw [hc2, foldMailbox_get_sq]
    simp only [List.get?_set_eq_of_lt _ hp1, Option.map_some', Option.some_inj]
    rw [hst1, htq1]
    simp [storeInsert, qpush]
  obtain ⟨n2, hn2, hsqn2⟩ := Option.map_eq_some'.mp hsq2
  simp only [Prod.mk.injEq] at hsqn2
  obtain ⟨hst2, htq2⟩ := hsqn2
  have hsget2 : storeGet key n2.store = some ⟨v2, some (t0 + d2)⟩ := by
    rw [hst2]; simp [storeGet]
  have hexp : ∀ e, (⟨v2, some (t0 + d2)⟩ : KVEntry).expiry = some e → t < e := by
    intro e he
    simp only [Option.some_inj] at he
    omega
  exact ⟨get_hit hg2 hn2 hsget2 hexp, p, reps, n2, hg2, hn2, htq2, hsget2⟩

/-- Witness for ttl_upsert: d1 = 5, d2 = 50, t0 = 100, get at t = 110. -/
theorem ttl_upsert_witness :
    clusterAfterUpsert.get [107] 110 = some (some [119], clusterAfterUpsert) ∧
    ∃ p2 rest2 n2, clusterAfterUpsert.getNodes [107] = some (p2 :: rest2) ∧
      clusterAfterUpsert.nodes.get? p2 = some n2 ∧
      n2.ttlQueue = [([107], 100 + 50)] ∧
      storeGet [107] n2.store = some { value := [119], expiry := some (100 + 50) } :=
  @ttl_upsert 1 1 [[97]] [107] [118] [119] 5 50 100 110 clusterAfterSet clusterAfterUpsert
    (by decide) (by decide) (by decide) (by decide) (by decide) (by decide)

theorem mem_ringInsert {p : Nat × Nat} {k val : Nat} {r : List (Nat × Nat)}
    (h : p ∈ ringInsert k val r) : p = (k, val) ∨ p ∈ r := by
  induction r with
  | nil => simpa [ringInsert] using h
  | cons hd tl ih =>
    obtain ⟨k', v'⟩ := hd
    by_cases h1 : k < k'
    · simp only [ringInsert, if_pos h1] at h
      exact List.mem_cons.mp h
    · by_cases h2 : k = k'
      · simp only [ringInsert, if_neg h1, if_pos h2] at h
        rcases List.mem_cons.mp h with h | h
        · exact Or.inl h
        · exact Or.inr (List.mem_cons_of_mem _ h)
      · simp only [ringInsert, if_neg h1, if_neg h2] at h
        rcases List.mem_cons.mp h with h | h
        · exact Or.inr (h ▸ List.mem_cons_self _ _)
        · rcases ih h with h | h
          · exact Or.inl h
          · exact Or.inr (List.mem_cons_of_mem _ h)

theorem mem_coordFold {p : Nat × Nat} (f : Nat → Nat) (val : Nat) :
    ∀ (l : List Nat) (r : List (Nat × Nat)),
      p ∈ l.foldl (fun rr i => ringInsert (f i) val rr) r → p.2 = val ∨ p ∈ r := by
  intro l
  induction l with
  | nil => intro r h; exact Or.inr h
  | cons hd tl ih =>
    intro r h
    rw [List.foldl_cons] at h
    rcases ih _ h with h | h
    · exact Or.inl h
    · rcases mem_ringInsert h with h | h
      · exact Or.inl (by rw [h])
      · exact Or.inr h

theorem addNode_length (c : KVCluster) (nodeId : List Nat) :
    (c.addNode nodeId).nodes.length = c.nodes.length + 1 := by
  simp [KVCluster.addNode]

theorem foldAddNode_rf (l : List (List Nat)) :
    ∀ c : KVCluster, (l.foldl KVCluster.addNode c).replicationFactor = c.replicationFactor := by
  induction l with
  | nil => intro c; rfl
  | cons hd tl ih => intro c; rw [List.foldl_cons, ih]; rfl

theorem buildCluster_rf (v r : Nat) (ids : List (List Nat)) :
    (buildCluster v r ids).replicationFactor = r := by
  rw [buildCluster, foldAddNode_rf]; rfl

theorem buildCluster_ring_bound (v r : Nat) (ids : List (List Nat)) :
    ∀ pr ∈ (buildCluster v r ids).ring, pr.2 < (buildCluster v r ids).nodes.length := by
  suffices h : ∀ (l : List (List Nat)) (c : KVCluster),
      (∀ pr ∈ c.ring, pr.2 < c.nodes.length) →
      ∀ pr ∈ (l.foldl KVCluster.addNode c).ring,
        pr.2 < (l.foldl KVCluster.addNode c).nodes.length by
    exact h ids (KVCluster.new v r) (by intro pr hpr; simp [KVCluster.new] at hpr)
  intro l
  induction l with
  | nil => intro c hc; exact hc
  | cons hd tl ih =>
    intro c hc
    rw [List.foldl_cons]
    apply ih
    intro pr hpr
    have hpr' : pr ∈ (List.range c.vnodesPerNode).foldl
        (fun rr i => ringInsert (xxh32 (vnodeBytes hd i) 0) c.nodes.length rr) c.ring := hpr
    rw [addNode_length]
    rcases mem_coordFold (fun i => xxh32 (vnodeBytes hd i) 0) c.nodes.length _ _ hpr' with
      h | h
    · omega
    · exact Nat.lt_succ_of_lt (hc pr h)

/-- C1 counterexample: the cluster new(V = 2, R = 2) with the two distinct
node ids 97 and 98 ("a" and "b") has n = 2 distinct physical nodes, yet for
the key [107, 101, 121] ("key") the first two entries of the clockwise walk
are both owned by node 0, and get_nodes — which performs no deduplication —
returns the replica list [0, 0]: not pairwise distinct, with 1 distinct node
instead of min(R, n) = 2. -/
theorem replica_set_duplicates_cex :
    ([[97], [98]] : List (List Nat)).Nodup ∧
    (buildCluster 2 2 [[97], [98]]).nodes.length = 2 ∧
    getNodeIdxs (buildCluster 2 2 [[97], [98]]) [107, 101, 121] = [0, 0] ∧
    ¬ (getNodeIdxs (buildCluster 2 2 [[97], [98]]) [107, 101, 121]).Nodup ∧
    (getNodeIdxs (buildCluster 2 2 [[97], [98]]) [107, 101, 121]).dedup.length = 1 := by
  decide

/-- C1 (amended): get_nodes performs NO deduplication of physical nodes: it
returns the node indices of the first R entries of the walk (the ring suffix
at or after the key's hash chained with the whole ring), so the replica list
has length min(R, suffix length + ring size) — in particular exactly R
whenever the ring is non-empty and R is at most that sum — and may repeat the
same physical node; every returned index addresses an existing node.  The
claimed pairwise-distinctness and size min(R, n) fail (see the
counterexample). -/
theorem replica_walk_no_dedup (v r : Nat) (ids : List (List Nat)) (key : List Nat) :
    (getNodeIdxs (buildCluster v r ids) key).length =
      min r
        (((buildCluster v r ids).ring.filter fun p => decide (xxh32 key 0 ≤ p.1)).length +
          (buildCluster v r ids).ring.length) ∧
    ∀ i ∈ getNodeIdxs (buildCluster v r ids) key,
      i < (buildCluster v r ids).nodes.length := by
  constructor
  · have hdef : getNodeIdxs (buildCluster v r ids) key =
        ((((buildCluster v r ids).ring.filter fun p => decide (xxh32 key 0 ≤ p.1)) ++
          (buildCluster v r ids).ring).map Prod.snd).take
          (buildCluster v r ids).replicationFactor := rfl
    rw [hdef, List.length_take, List.length_map, List.length_append, buildCluster_rf]
  · intro i hi
    have hi' : i ∈ (((buildCluster v r ids).ring.filter
        fun p => decide (xxh32 key 0 ≤ p.1)) ++ (buildCluster v r ids).ring).map Prod.snd :=
      List.mem_of_mem_take hi
    obtain ⟨pr, hpr, hsnd⟩ := List.mem_map.mp hi'
    rcases List.mem_append.mp hpr with h | h
    · exact hsnd ▸ buildCluster_ring_bound v r ids pr (List.mem_filter.mp h).1
    · exact hsnd ▸ buildCluster_ring_bound v r ids pr h

/-- Witness for replica_walk_no_dedup at the counterexample cluster. -/
theorem replica_walk_no_dedup_witness :
    (getNodeIdxs (buildCluster 2 2 [[97], [98]]) [107, 101, 121]).length =
      min 2
        (((buildCluster 2 2 [[97], [98]]).ring.filter
            fun p => decide (xxh32 [107, 101, 121] 0 ≤ p.1)).length +
          (buildCluster 2 2 [[97], [98]]).ring.length) ∧
    ∀ i ∈ getNodeIdxs (buildCluster 2 2 [[97], [98]]) [107, 101, 121],
      i < (buildCluster 2 2 [[97], [98]]).nodes.length :=
  replica_walk_no_dedup 2 2 [[97], [98]] [107, 101, 121]

theorem ringSorted_ringInsert (k val : Nat) {r : List (Nat × Nat)} (h : ringSorted r) :
    ringSorted (ringInsert k val r) := by
  induction r with
  | nil => simp [ringInsert, ringSorted]
  | cons hd tl ih =>
    obtain ⟨k', v'⟩ := hd
    rw [ringSorted, List.pairwise_cons] at h
    obtain ⟨hhd, htl⟩ := h
    by_cases h1 : k < k'
    · simp only [ringInsert, if_pos h1]
      rw [ringSorted, List.pairwise_cons]
      refine ⟨?_, List.Pairwise.cons hhd htl⟩
      intro b hb
      rcases List.mem_cons.mp hb with hb | hb
      · rw [hb]; exact h1
      · exact Nat.lt_trans h1 (hhd b hb)
    · by_cases h2 : k = k'
      · simp only [ringInsert, if_neg h1, if_pos h2]
        rw [ringSorted, List.pairwise_cons]
        refine ⟨?_, htl⟩
        intro b hb
        rw [h2]
        exact hhd b hb
      · have h3 : k' < k := by omega
        simp only [ringInsert, if_neg h1, if_neg h2]
        rw [ringSorted, List.pairwise_cons]
        constructor
        · intro b hb
          rcases mem_ringInsert hb with hb | hb
          · rw [hb]; exact h3
          · exact hhd b hb
        · exact ih htl

theorem mem_ringInsert_key_eq {k val : Nat} {p : Nat × Nat} :
    ∀ {r : List (Nat × Nat)}, ringSorted r → p ∈ ringInsert k val r → p.1 = k →
      p.2 = val := by
  intro r
  induction r with
  | nil =>
    intro _ h _
    simp only [ringInsert, List.mem_singleton] at h
    rw [h]
  | cons hd tl ih =>
    intro hs h hk
    obtain ⟨k', v'⟩ := hd
    rw [ringSorted, List.pairwise_cons] at hs
    obtain ⟨hhd, htl⟩ := hs
    by_cases h1 : k < k'
    · simp only [ringInsert, if_pos h1] at h
      rcases List.mem_cons.mp h with h | h
      · rw [h]
      · rcases List.mem_cons.mp h with h | h
        · exfalso; rw [h] at hk; simp at hk; omega
        · exfalso; have := hhd p h; omega
    · by_cases h2 : k = k'
      · simp only [ringInsert, if_neg h1, if_pos h2] at h
        rcases List.mem_cons.mp h with h | h
        · rw [h]
        · exfalso; have := hhd p h; omega
      · simp only [ringInsert, if_neg h1, if_neg h2] at h
        rcases List.mem_cons.mp h with h | h
        · exfalso; rw [h] at hk; simp at hk; omega
        · exact ih htl h hk

theorem ringSorted_coordFold (f : Nat → Nat) (val : Nat) :
    ∀ (l : List Nat) {r : List (Nat × Nat)}, ringSorted r →
      ringSorted (l.foldl (fun rr i => ringInsert (f i) val rr) r) := by
  intro l
  induction l with
  | nil => intro r h; exact h
  | cons hd tl ih =>
    intro r h
    rw [List.foldl_cons]
    exact ih (ringSorted_ringInsert _ _ h)

theorem coordFold_overwrites (f : Nat → Nat) (val : Nat) :
    ∀ (l : List Nat) {r : List (Nat × Nat)}, ringSorted r →
      ∀ p ∈ l.foldl (fun rr i => ringInsert (f i) val rr) r,
        p.2 = val ∨ (p ∈ r ∧ ∀ i ∈ l, p.1 ≠ f i) := by
  intro l
  induction l with
  | nil => intro r _ p hp; exact Or.inr ⟨hp, by simp⟩
  | cons hd tl ih =>
    intro r hs p hp
    rw [List.foldl_cons] at hp
    rcases ih (ringSorted_ringInsert _ _ hs) p hp with h | ⟨hmem, hni⟩
    · exact Or.inl h
    · by_cases hk : p.1 = f hd
      · exact Or.inl (mem_ringInsert_key_eq hs hmem hk)
      · rcases mem_ringInsert hmem with h | h
        · exact Or.inl (by rw [h])
        · refine Or.inr ⟨h, ?_⟩
          intro i hi
          rcases List.mem_cons.mp hi with hi | hi
          · rw [hi]; exact hk
          · exact hni i hi

theorem coordFold_keys (f : Nat → Nat) (val : Nat) :
    ∀ (l : List Nat) (r : List (Nat × Nat)) (p : Nat × Nat),
      p ∈ l.foldl (fun rr i => ringInsert (f i) val rr) r →
      (∃ i ∈ l, p.1 = f i) ∨ p ∈ r := by
  intro l
  induction l with
  | nil => intro r p h; exact Or.inr h
  | cons hd tl ih =>
    intro r p h
    rw [List.foldl_cons] at h
    rcases ih _ _ h with ⟨i, hi, hk⟩ | h
    · exact Or.inl ⟨i, List.mem_cons_of_mem _ hi, hk⟩
    · rcases mem_ringInsert h with h | h
      · exact Or.inl ⟨hd, List.mem_cons_self _ _, by rw [h]⟩
      · exact Or.inr h

/-- C10: calling add_node twice with the same node id (V unchanged) makes the
second call recompute the identical V ring coordinates and overwrite each of
them with the newer node's index 1 (BTreeMap::insert replaces the value): the
earlier node stays in the node list at index 0 (indices never shift), every
ring entry's index is 1, and hence every index the routing walk emits for any
key is 1 — the earlier node is no longer the target of any routed operation. -/
theorem duplicate_add_node_unroutes_old_node (v r : Nat) (nodeId key : List Nat) :
    (buildCluster v r [nodeId, nodeId]).nodes.length = 2 ∧
    (buildCluster v r [nodeId, nodeId]).nodes.get? 0 =
      some { id := nodeId, store := [], ttlQueue := [], mailbox := [] } ∧
    (∀ pr ∈ (buildCluster v r [nodeId, nodeId]).ring, pr.2 = 1) ∧
    (∀ i ∈ getNodeIdxs (buildCluster v r [nodeId, nodeId]) key, i = 1) := by
  have hring1 : ((KVCluster.new v r).addNode nodeId).ring =
      (List.range v).foldl
        (fun rr i => ringInsert (xxh32 (vnodeBytes nodeId i) 0) 0 rr) [] := rfl
  have hring2 : (buildCluster v r [nodeId, nodeId]).ring =
      (List.range v).foldl
        (fun rr i => ringInsert (xxh32 (vnodeBytes nodeId i) 0) 1 rr)
        (((KVCluster.new v r).addNode nodeId).ring) := rfl
  have hs1 : ringSorted (((KVCluster.new v r).addNode nodeId).ring) := by
    rw [hring1]
    exact ringSorted_coordFold _ _ _ (by simp [ringSorted])
  have hvals : ∀ pr ∈ (buildCluster v r [nodeId, nodeId]).ring, pr.2 = 1 := by
    intro pr hpr
    rw [hring2] at hpr
    rcases coordFold_overwrites (fun i => xxh32 (vnodeBytes nodeId i) 0) 1 _ hs1 pr hpr with
      h | ⟨hmem, hni⟩
    · exact h
    · exfalso
      rw [hring1] at hmem
      rcases coordFold_keys (fun i => xxh32 (vnodeBytes nodeId i) 0) 0 _ _ _ hmem with
        ⟨i, hi, hk⟩ | h
      · exact hni i hi hk
      · simp at h
  refine ⟨rfl, rfl, hvals, ?_⟩
  intro i hi
  have hi' : i ∈ (((buildCluster v r [nodeId, nodeId]).ring.filter
      fun p => decide (xxh32 key 0 ≤ p.1)) ++ (buildCluster v r [nodeId, nodeId]).ring).map
        Prod.snd :=
    List.mem_of_mem_take hi
  obtain ⟨pr, hpr, hsnd⟩ := List.mem_map.mp hi'
  rcases List.mem_append.mp hpr with h | h
  · exact hsnd ▸ hvals pr (List.mem_filter.mp h).1
  · exact hsnd ▸ hvals pr h

/-- Witness for duplicate_add_node_unroutes_old_node at V = 2, id 97. -/
theorem duplicate_add_node_unroutes_old_node_witness :
    (buildCluster 2 1 [[97], [97]]).nodes.length = 2 ∧
    (buildCluster 2 1 [[97], [97]]).nodes.get? 0 =
      some { id := [97], store := [], ttlQueue := [], mailbox := [] } ∧
    (∀ pr ∈ (buildCluster 2 1 [[97], [97]]).ring, pr.2 = 1) ∧
    (∀ i ∈ getNodeIdxs (buildCluster 2 1 [[97], [97]]) [107], i = 1) :=
  duplicate_add_node_unroutes_old_node 2 1 [97] [107]

end Volt
